import Mathlib

/-!
Verification of the Frostmist Pavilion timezone-conversion core
(`src/frostmist-pavilion/app.js`): the offset resolver `getOffsetMinutes`,
the wall-clock converter `convertTime`, and the selection propagator
`updateAllTimes`, shallowly embedded in Lean.

The browser's locale-time formatting primitive (`Intl.DateTimeFormat`,
used only to obtain the local hour/minute of the fixed reference instant
2024-01-15T12:00:00 UTC in a given zone) is modelled as an explicit
parameter `fmt : String → Option (Nat × Nat)`; `none` models the
exception thrown on an invalid zone identifier.  The global offset cache
`_tzOffsetCache` is modelled as an explicit association list threaded
through the computations.  JavaScript number arithmetic on these values
is exact integer arithmetic: `%` is truncated remainder (`Int.tmod`) and
`Math.floor` of an integer quotient is floor division (`Int.fdiv`).
-/

namespace Frostmist

/-- Result record of `convertTime`: `{ display, dayOffset }`. -/
structure ConversionResult where
  display : String
  dayOffset : Int
deriving DecidableEq

/-- The global `_tzOffsetCache` object, as an association list from zone
identifier to offset minutes. -/
abbrev OffsetCache := List (String × Int)

/-- Property lookup `_tzOffsetCache[tz]` (`none` models `undefined`). -/
def lookupCache : OffsetCache → String → Option Int
  | [], _ => none
  | (k, v) :: rest, tz => if k = tz then some v else lookupCache rest tz

/-- The regex test `/^\d{1,2}:\d{2}$/.test(timeStr)`: one or two digits,
a colon, exactly two digits, anchored at both ends. -/
def matchesHHMM (s : String) : Bool :=
  match s.toList with
  | [h1, c, m1, m2] => h1.isDigit && (c == ':') && m1.isDigit && m2.isDigit
  | [h1, h2, c, m1, m2] =>
      h1.isDigit && h2.isDigit && (c == ':') && m1.isDigit && m2.isDigit
  | _ => false

/-- Splitting a character list at a separator, as `String.split(sep)` does. -/
def splitAux (sep : Char) : List Char → List Char → List (List Char)
  | [], cur => [cur.reverse]
  | c :: cs, cur =>
      if c = sep then cur.reverse :: splitAux sep cs []
      else splitAux sep cs (c :: cur)

/-- `timeStr.split(':')`. -/
def splitColon (s : String) : List String :=
  (splitAux ':' s.toList []).map (fun l => ⟨l⟩)

/-- JavaScript `Number(s)` restricted to strings of decimal digits. -/
def jsNumberDigits (s : String) : Nat :=
  s.toList.foldl (fun a c => 10 * a + (c.toNat - ('0').toNat)) 0

/-- `const [h, m] = timeStr.split(':').map(Number)`, packaged as a pair.
Only used after the `matchesHHMM` guard, where the split has exactly two
digit-run components. -/
def parseHM (s : String) : Nat × Nat :=
  match splitColon s with
  | [hs, ms] => (jsNumberDigits hs, jsNumberDigits ms)
  | _ => (0, 0)

/-- `s.padStart(2, '0')`. -/
def padStart2Zero (s : String) : String :=
  if 2 ≤ s.length then s else if s.length = 1 then "0" ++ s else "00"

/-- `String(n).padStart(2, '0')` for a non-negative integer `n`. -/
def pad2 (n : Nat) : String := padStart2Zero (Nat.repr n)

/-- The offset formula of `getOffsetMinutes` applied to a formatted local
hour `H` and minute `M`: normalize the hour-24 quirk, then
`12 * 60 - (h * 60 + m)`. -/
def offsetFromHM (H M : Nat) : Int :=
  12 * 60 - ((if H = 24 then 0 else (H : Int)) * 60 + (M : Int))

/-- `getOffsetMinutes(tz)`: return the cached offset when present;
otherwise format the reference instant via the locale primitive `fmt`
(whose failure, `none`, models the thrown exception), apply the offset
formula and store the result in the cache. -/
def getOffsetMinutes (fmt : String → Option (Nat × Nat)) (cache : OffsetCache)
    (tz : String) : Option (Int × OffsetCache) :=
  match lookupCache cache tz with
  | some v => some (v, cache)
  | none =>
      match fmt tz with
      | none => none
      | some (H, M) => some (offsetFromHM H M, (tz, offsetFromHM H M) :: cache)

/-- `convertTime(timeStr, fromTz, toTz)` with the two zone offsets already
resolved, given as the function `offset`.  Mirrors lines 59-71 of
`app.js`: pass-through guard, parse, raw minutes, `Math.floor(raw/1440)`,
the double truncated-remainder normalization, and two-digit formatting. -/
def convertTime (offset : String → Int) (timeStr fromTz toTz : String) :
    ConversionResult :=
  if fromTz = toTz ∨ matchesHHMM timeStr = false then
    ⟨timeStr, 0⟩
  else
    let h := (parseHM timeStr).1
    let m := (parseHM timeStr).2
    let raw : Int := (h : Int) * 60 + (m : Int) + offset fromTz - offset toTz
    let dayOffset := Int.fdiv raw 1440
    let normalized := Int.tmod (Int.tmod raw 1440 + 1440) 1440
    ⟨pad2 (normalized.toNat / 60) ++ ":" ++ pad2 (normalized.toNat % 60),
     dayOffset⟩

/-- `convertTime` with offset resolution included: the two
`getOffsetMinutes` calls are. evaluated left to right against the shared
cache, and failure of either propagates (no local recovery). -/
def convertTimeE (fmt : String → Option (Nat × Nat)) (timeStr fromTz toTz : String)
    (cache : OffsetCache) : Option (ConversionResult × OffsetCache) :=
  if fromTz = toTz ∨ matchesHHMM timeStr = false then
    some (⟨timeStr, 0⟩, cache)
  else
    match getOffsetMinutes fmt cache fromTz with
    | none => none
    | some (oF, c1) =>
        match getOffsetMinutes fmt c1 toTz with
        | none => none
        | some (oT, c2) =>
            let h := (parseHM timeStr).1
            let m := (parseHM timeStr).2
            let raw : Int := (h : Int) * 60 + (m : Int) + oF - oT
            let dayOffset := Int.fdiv raw 1440
            let normalized := Int.tmod (Int.tmod raw 1440 + 1440) 1440
            some (⟨pad2 (normalized.toNat / 60) ++ ":" ++
                     pad2 (normalized.toNat % 60), dayOffset⟩, c2)

/-- A `[data-base-time]` element: its stored base time string and its
optional `data-note-prefix` attribute. -/
structure TimeNode where
  baseTime : String
  notePrefixStr : Option String
deriving DecidableEq

/-- The rewritten content of a time-bearing element after one propagation
pass: its text content, and the text of the appended day-offset badge
span when one was appended. -/
structure RenderedNode where
  text : String
  badge : Option String
deriving DecidableEq

/-- The per-element body of `updateAllTimes`: replace the content with
`prefix + display` and append a badge exactly when `dayOffset !== 0`,
showing only the sign. -/
def renderNode (n : TimeNode) (r : ConversionResult) : RenderedNode :=
  { text := (Option.getD n.notePrefixStr "") ++ r.display,
    badge := if r.dayOffset ≠ 0 then
               some (if 0 < r.dayOffset then "+1" else "-1")
             else none }

/-- The `forEach` loop of `updateAllTimes` over the time-bearing nodes,
threading the offset cache; an offset-resolution failure at any node
aborts the pass with `none`. -/
def runNodes (fmt : String → Option (Nat × Nat)) (fromTz toTz : String) :
    List TimeNode → OffsetCache → Option (List RenderedNode × OffsetCache)
  | [], cache => some ([], cache)
  | n :: rest, cache =>
      match convertTimeE fmt n.baseTime fromTz toTz cache with
      | none => none
      | some (r, c1) =>
          match runNodes fmt fromTz toTz rest c1 with
          | none => none
          | some (outs, c2) => some (renderNode n r :: outs, c2)

/-- `updateAllTimes()`: convert every time-bearing node from the
configuration's base zone (`currentConfig.baseTimezone || 'Asia/Taipei'`)
to the currently selected zone. -/
def updateAllTimesE (fmt : String → Option (Nat × Nat)) (cfgBase : Option String)
    (selected : String) (nodes : List TimeNode) (cache : OffsetCache) :
    Option (List RenderedNode × OffsetCache) :=
  runNodes fmt (Option.getD cfgBase "Asia/Taipei") selected nodes cache

/-- Spec formula: `raw = h*60 + m + offset(fromTz) - offset(toTz)` on the
unbounded integer line. -/
def specRawHM (h m : Nat) (oF oT : Int) : Int :=
  (h : Int) * 60 + (m : Int) + oF - oT

/-- Spec formula: `normalized = ((raw mod 1440) + 1440) mod 1440` read
with the mathematical (Euclidean) modulus, the convention under which the
spec asserts the result is always in `[0, 1440)`. -/
def specNormalized (raw : Int) : Int := ((raw % 1440) + 1440) % 1440

/-- Spec formula: output hour `floor(normalized/60)` and output minute
`normalized mod 60`, zero-padded to two digits and joined with a colon. -/
def specDisplay (n : Nat) : String := pad2 (n / 60) ++ ":" ++ pad2 (n % 60)

/-- Exactly two digits, a colon, and two digits. -/
def isTwoDigitHHMM (s : String) : Bool :=
  match s.toList with
  | [a, b, c, d, e] =>
      a.isDigit && b.isDigit && (c == ':') && d.isDigit && e.isDigit
  | _ => false

/-- One cache state extends another: every entry present in the first is
present, with the same value, in the second. -/
def cacheExtends (c d : OffsetCache) : Prop :=
  ∀ k v, lookupCache c k = some v → lookupCache d k = some v

/-- Offsets used by the concrete spec example: base zone UTC+8 (offset
-480), target zone UTC-5 (offset +300). -/
def offsetEx : String → Int :=
  fun tz => if tz = "Asia/Taipei" then -480 else 300

/-- A pair of distinct zones with equal resolved offsets. -/
def offsetEq : String → Int := fun _ => 0

/-- A formatting primitive that knows a zone at UTC+8 local 20:00 at the
reference instant. -/
def fmtEx : String → Option (Nat × Nat) := fun _ => some (20, 0)

/-- A formatting primitive that always fails (invalid zone identifiers). -/
def fmtNone : String → Option (Nat × Nat) := fun _ => none

/-- A formatting primitive resolving the two zones of the propagation
example: the base zone at UTC+8 and the selected zone at UTC-5. -/
def fmtW : String → Option (Nat × Nat) :=
  fun tz => if tz = "Base/Z" then some (20, 0)
            else if tz = "Sel/Z" then some (7, 0) else none

/-- The single time-bearing node of the propagation example. -/
def nodesW : List TimeNode := [⟨"09:00", none⟩]

/-- JavaScript truncated remainder by 1440 is strictly above `-1440`. -/
theorem tmod_lower_bound (a : Int) : -1440 < Int.tmod a 1440 := by
  cases a with
  | ofNat m =>
      have h : 0 ≤ Int.tmod (Int.ofNat m) 1440 :=
        Int.tmod_nonneg 1440
          (by simp only [Int.ofNat_eq_natCast]; exact Int.natCast_nonneg m)
      omega
  | negSucc m =>
      show -1440 < -(Int.ofNat (Nat.succ m % 1440))
      have h : Nat.succ m % 1440 < 1440 := Nat.mod_lt _ (by omega)
      simp only [Int.ofNat_eq_natCast]
      omega

/-- The double truncated-remainder normalization of the source equals the
spec's sign-convention-independent normalization. -/
theorem tmod_chain_eq (raw : Int) :
    Int.tmod (Int.tmod raw 1440 + 1440) 1440 = specNormalized raw := by
  have hub : Int.tmod raw 1440 < 1440 := Int.tmod_lt_of_pos raw (by norm_num)
  have hlb : -1440 < Int.tmod raw 1440 := tmod_lower_bound raw
  have hdef : Int.tmod raw 1440 = raw - 1440 * raw.tdiv 1440 := Int.tmod_def raw 1440
  rw [Int.tmod_eq_emod (by omega) (by omega)]
  unfold specNormalized
  omega

/-- The spec normalization is just the Euclidean remainder by 1440. -/
theorem specNormalized_eq_emod (raw : Int) : specNormalized raw = raw % 1440 := by
  unfold specNormalized
  omega

/-- The spec normalization lands in `[0, 1440)`. -/
theorem specNormalized_bounds (raw : Int) :
    0 ≤ specNormalized raw ∧ specNormalized raw < 1440 := by
  unfold specNormalized
  omega

/-- `Math.floor(raw / 1440)` on integers is Euclidean division by the
positive constant 1440. -/
theorem fdiv_1440_eq (raw : Int) : Int.fdiv raw 1440 = raw / 1440 :=
  Int.fdiv_eq_ediv raw (by norm_num)

/-- When the pass-through guard does not fire, `convertTime` produces
exactly the spec's display and day-offset formulas. -/
theorem convertTime_eq_spec (offset : String → Int) (timeStr fromTz toTz : String)
    (hm : matchesHHMM timeStr = true) (hne : fromTz ≠ toTz) :
    convertTime offset timeStr fromTz toTz =
      ⟨specDisplay (specNormalized (specRawHM (parseHM timeStr).1 (parseHM timeStr).2
          (offset fromTz) (offset toTz))).toNat,
       Int.fdiv (specRawHM (parseHM timeStr).1 (parseHM timeStr).2
          (offset fromTz) (offset toTz)) 1440⟩ := by
  unfold convertTime
  rw [if_neg (by simp [hne, hm])]
  simp only [tmod_chain_eq, specDisplay, specRawHM]

/-- Two-digit zero-padded rendering of an in-range hour/minute pair
matches the accepted pattern, is exactly two-digit/two-digit, and parses
back to the same pair. -/
theorem pad2_hhmm_ok : ∀ x < 24, ∀ y < 60,
    matchesHHMM (pad2 x ++ ":" ++ pad2 y) = true ∧
    isTwoDigitHHMM (pad2 x ++ ":" ++ pad2 y) = true ∧
    parseHM (pad2 x ++ ":" ++ pad2 y) = (x, y) := by decide

/-- C1: for every input matching the time pattern and distinct zones with
resolved offsets `oF`, `oT`, `convertTime` computes
`raw = h*60 + m + oF - oT` on the unbounded integer line and returns
day offset `floor(raw / 1440)` together with the display of
`normalized = ((raw mod 1440) + 1440) mod 1440` minutes, and this
normalized value always lies in `[0, 1440)`. -/
theorem C1_convertTime_arithmetic (offset : String → Int)
    (timeStr fromTz toTz : String)
    (hm : matchesHHMM timeStr = true) (hne : fromTz ≠ toTz) :
    convertTime offset timeStr fromTz toTz =
      ⟨specDisplay (specNormalized (specRawHM (parseHM timeStr).1 (parseHM timeStr).2
          (offset fromTz) (offset toTz))).toNat,
       Int.fdiv (specRawHM (parseHM timeStr).1 (parseHM timeStr).2
          (offset fromTz) (offset toTz)) 1440⟩ ∧
    0 ≤ specNormalized (specRawHM (parseHM timeStr).1 (parseHM timeStr).2
          (offset fromTz) (offset toTz)) ∧
    specNormalized (specRawHM (parseHM timeStr).1 (parseHM timeStr).2
          (offset fromTz) (offset toTz)) < 1440 :=
  ⟨convertTime_eq_spec offset timeStr fromTz toTz hm hne,
   (specNormalized_bounds _).1, (specNormalized_bounds _).2⟩

/-- C1 witness: source zone at offset -480 (UTC+8), target zone at offset
+300 (UTC-5), input "09:00": the result is display "20:00" with day
offset -1. -/
theorem C1_witness :
    convertTime offsetEx "09:00" "Asia/Taipei" "America/New_York" =
      ⟨"20:00", -1⟩ := by
  have h := C1_convertTime_arithmetic offsetEx "09:00" "Asia/Taipei"
    "America/New_York" (by decide) (by decide)
  exact h.1.trans (by decide)

/-- C2: for every zone whose reference-instant formatting yields local
hour `H` and minute `M` and which is not yet cached, `getOffsetMinutes`
returns `12*60 - (normalizedHour*60 + M)` where an `H` of 24 is
normalized to 0, and stores that value in the cache. -/
theorem C2_getOffsetMinutes_formula (fmt : String → Option (Nat × Nat))
    (cache : OffsetCache) (tz : String) (H M : Nat)
    (hc : lookupCache cache tz = none) (hf : fmt tz = some (H, M)) :
    getOffsetMinutes fmt cache tz =
      some (12 * 60 - ((if H = 24 then 0 else (H : Int)) * 60 + (M : Int)),
            (tz, 12 * 60 - ((if H = 24 then 0 else (H : Int)) * 60 + (M : Int)))
              :: cache) := by
  unfold getOffsetMinutes
  rw [hc, hf]
  rfl

/-- C2 witness: a zone behind UTC whose local time at the reference
instant is 07:00 (UTC-5) yields offset +300, and one ahead of UTC at
local 20:00 (UTC+8) yields offset -480. -/
theorem C2_witness :
    getOffsetMinutes fmtW [] "Sel/Z" = some (300, [("Sel/Z", 300)]) ∧
    getOffsetMinutes fmtW [] "Base/Z" = some (-480, [("Base/Z", -480)]) := by
  constructor
  · exact (C2_getOffsetMinutes_formula fmtW [] "Sel/Z" 7 0 rfl rfl).trans
      (by decide)
  · exact (C2_getOffsetMinutes_formula fmtW [] "Base/Z" 20 0 rfl rfl).trans
      (by decide)

/-- C4: whenever the source and destination zones coincide or the input
does not match the time pattern, `convertTime` passes the input through
unchanged with day offset 0 — both for resolved offsets and with offset
resolution included, where neither the cache nor the formatting primitive
is touched. -/
theorem C4_passthrough (offset : String → Int)
    (fmt : String → Option (Nat × Nat)) (cache : OffsetCache)
    (timeStr fromTz toTz : String)
    (hguard : fromTz = toTz ∨ matchesHHMM timeStr = false) :
    convertTime offset timeStr fromTz toTz = ⟨timeStr, 0⟩ ∧
    convertTimeE fmt timeStr fromTz toTz cache = some (⟨timeStr, 0⟩, cache) := by
  constructor
  · unfold convertTime
    rw [if_pos hguard]
  · unfold convertTimeE
    rw [if_pos hguard]

/-- C4 witness: the placeholder "時間待定" passes through unchanged between
two distinct zones. -/
theorem C4_witness :
    convertTime offsetEx "時間待定" "Asia/Taipei" "America/New_York" =
      ⟨"時間待定", 0⟩ ∧
    convertTimeE fmtNone "時間待定" "Asia/Taipei" "America/New_York" [] =
      some (⟨"時間待定", 0⟩, []) :=
  C4_passthrough offsetEx fmtNone [] "時間待定" "Asia/Taipei" "America/New_York"
    (Or.inr (by decide))

/-- C5: for matching input and distinct zones with resolved offsets, the
display is exactly two-digit-hour, colon, two-digit-minute: the output
hour `normalized / 60` is at most 23 and the output minute
`normalized mod 60` is at most 59, each zero-padded to two digits. -/
theorem C5_output_format (offset : String → Int) (timeStr fromTz toTz : String)
    (hm : matchesHHMM timeStr = true) (hne : fromTz ≠ toTz) :
    isTwoDigitHHMM (convertTime offset timeStr fromTz toTz).display = true ∧
    (convertTime offset timeStr fromTz toTz).display =
      pad2 ((specNormalized (specRawHM (parseHM timeStr).1 (parseHM timeStr).2
          (offset fromTz) (offset toTz))).toNat / 60) ++ ":" ++
      pad2 ((specNormalized (specRawHM (parseHM timeStr).1 (parseHM timeStr).2
          (offset fromTz) (offset toTz))).toNat % 60) ∧
    (specNormalized (specRawHM (parseHM timeStr).1 (parseHM timeStr).2
        (offset fromTz) (offset toTz))).toNat / 60 ≤ 23 ∧
    (specNormalized (specRawHM (parseHM timeStr).1 (parseHM timeStr).2
        (offset fromTz) (offset toTz))).toNat % 60 ≤ 59 := by
  have hspec := convertTime_eq_spec offset timeStr fromTz toTz hm hne
  have hb := specNormalized_bounds (specRawHM (parseHM timeStr).1
    (parseHM timeStr).2 (offset fromTz) (offset toTz))
  have hN : (specNormalized (specRawHM (parseHM timeStr).1 (parseHM timeStr).2
      (offset fromTz) (offset toTz))).toNat < 1440 := by omega
  have h60 : (specNormalized (specRawHM (parseHM timeStr).1 (parseHM timeStr).2
      (offset fromTz) (offset toTz))).toNat / 60 < 24 := by omega
  have h60m : (specNormalized (specRawHM (parseHM timeStr).1 (parseHM timeStr).2
      (offset fromTz) (offset toTz))).toNat % 60 < 60 := by omega
  have hok := pad2_hhmm_ok _ h60 _ h60m
  refine ⟨?_, ?_, by omega, by omega⟩
  · rw [hspec]
    exact hok.2.1
  · rw [hspec]
    rfl

/-- C5 witness: the one-digit-hour input "9:05" between distinct zones of
equal offset renders as the two-digit display "09:05". -/
theorem C5_witness :
    isTwoDigitHHMM (convertTime offsetEq "9:05" "Asia/Taipei"
      "America/New_York").display = true ∧
    (convertTime offsetEq "9:05" "Asia/Taipei" "America/New_York").display =
      "09:05" := by
  have h := C5_output_format offsetEq "9:05" "Asia/Taipei" "America/New_York"
    (by decide) (by decide)
  exact ⟨h.1, h.2.1.trans (by decide)⟩

/-- C10: an input whose hour component is an oversized two-digit value
(24-99) still matches the accepted pattern and is not rejected:
`convertTime` with offset resolution succeeds and applies the same
raw/normalized/day-offset arithmetic, folding the extra day into the
day-rollover count. -/
theorem C10_oversized_hour (fmt : String → Option (Nat × Nat))
    (cache : OffsetCache) (timeStr fromTz toTz : String) (oF oT : Int)
    (hm : matchesHHMM timeStr = true) (hh : 24 ≤ (parseHM timeStr).1)
    (hne : fromTz ≠ toTz)
    (hF : lookupCache cache fromTz = some oF)
    (hT : lookupCache cache toTz = some oT) :
    convertTimeE fmt timeStr fromTz toTz cache =
      some (⟨specDisplay (specNormalized (specRawHM (parseHM timeStr).1
              (parseHM timeStr).2 oF oT)).toNat,
             Int.fdiv (specRawHM (parseHM timeStr).1 (parseHM timeStr).2 oF oT)
               1440⟩, cache) := by
  have hOffF : getOffsetMinutes fmt cache fromTz = some (oF, cache) := by
    unfold getOffsetMinutes
    rw [hF]
  have hOffT : getOffsetMinutes fmt cache toTz = some (oT, cache) := by
    unfold getOffsetMinutes
    rw [hT]
  unfold convertTimeE
  rw [if_neg (by simp [hne, hm])]
  simp only [hOffF, hOffT, tmod_chain_eq, specDisplay, specRawHM]

/-- C10 witness: between two distinct zones of equal resolved offset,
input "25:30" converts without error to display "01:30" with day offset
1. -/
theorem C10_witness :
    convertTimeE fmtNone "25:30" "Zone/A" "Zone/B"
        [("Zone/A", 0), ("Zone/B", 0)] =
      some (⟨"01:30", 1⟩, [("Zone/A", 0), ("Zone/B", 0)]) := by
  have h := C10_oversized_hour fmtNone [("Zone/A", 0), ("Zone/B", 0)]
    "25:30" "Zone/A" "Zone/B" 0 0 (by decide) (by decide) (by decide) rfl rfl
  exact h.trans (by decide)

/-- C6: the first successful call for an uncached zone computes its
offset, stores it, and every later call for the same zone — even against
a different (or failing) formatting primitive — returns the stored value
with the cache unchanged; adding the new entry never disturbs any
existing cache entry. -/
theorem C6_cache_memoization (fmt fmt2 : String → Option (Nat × Nat))
    (cache : OffsetCache) (tz : String) (H M : Nat)
    (hc : lookupCache cache tz = none) (hf : fmt tz = some (H, M)) :
    getOffsetMinutes fmt cache tz =
      some (offsetFromHM H M, (tz, offsetFromHM H M) :: cache) ∧
    lookupCache ((tz, offsetFromHM H M) :: cache) tz = some (offsetFromHM H M) ∧
    getOffsetMinutes fmt2 ((tz, offsetFromHM H M) :: cache) tz =
      some (offsetFromHM H M, (tz, offsetFromHM H M) :: cache) ∧
    (∀ k w, lookupCache cache k = some w →
      lookupCache ((tz, offsetFromHM H M) :: cache) k = some w) := by
  refine ⟨?_, ?_, ?_, ?_⟩
  · unfold getOffsetMinutes
    rw [hc, hf]
  · simp [lookupCache]
  · simp [getOffsetMinutes, lookupCache]
  · intro k w hk
    by_cases he : tz = k
    · subst he
      rw [hc] at hk
      cases hk
    · simp only [lookupCache, if_neg he]
      exact hk

/-- C6 witness: resolving an uncached zone at local 20:00 stores -480,
and the second call returns the stored -480 untouched even when the
formatting primitive now always fails. -/
theorem C6_witness :
    getOffsetMinutes fmtEx [] "Asia/Taipei" =
      some (-480, [("Asia/Taipei", -480)]) ∧
    getOffsetMinutes fmtNone [("Asia/Taipei", -480)] "Asia/Taipei" =
      some (-480, [("Asia/Taipei", -480)]) := by
  have e : offsetFromHM 20 0 = -480 := by decide
  have h := C6_cache_memoization fmtEx fmtNone [] "Asia/Taipei" 20 0 rfl rfl
  rw [e] at h
  exact ⟨h.1, h.2.2.1⟩

/-- C7: for a matching time string and distinct zones, failure of the
locale formatting primitive on an uncached source zone propagates
unguarded: the conversion yields no result (no default is substituted)
and a propagation pass over a node bearing that time fails for that
node. -/
theorem C7_error_propagation (fmt : String → Option (Nat × Nat))
    (cache : OffsetCache) (timeStr fromTz toTz : String)
    (hne : fromTz ≠ toTz) (hm : matchesHHMM timeStr = true)
    (hc : lookupCache cache fromTz = none) (hf : fmt fromTz = none) :
    convertTimeE fmt timeStr fromTz toTz cache = none ∧
    updateAllTimesE fmt (some fromTz) toTz [⟨timeStr, none⟩] cache = none := by
  have hoff : getOffsetMinutes fmt cache fromTz = none := by
    unfold getOffsetMinutes
    rw [hc, hf]
  have hconv : convertTimeE fmt timeStr fromTz toTz cache = none := by
    unfold convertTimeE
    rw [if_neg (by simp [hne, hm]), hoff]
  refine ⟨hconv, ?_⟩
  simp only [updateAllTimesE, runNodes, Option.getD, hconv]

/-- C7 witness: an unresolvable source zone makes both the conversion and
the single-node propagation pass fail with no fallback value. -/
theorem C7_witness :
    convertTimeE fmtNone "09:00" "Bad/Zone" "Asia/Taipei" [] = none ∧
    updateAllTimesE fmtNone (some "Bad/Zone") "Asia/Taipei"
      [⟨"09:00", none⟩] [] = none :=
  C7_error_propagation fmtNone [] "09:00" "Bad/Zone" "Asia/Taipei"
    (by decide) (by decide) rfl rfl

/-- Cache extension is reflexive. -/
theorem cacheExtends_refl (c : OffsetCache) : cacheExtends c c :=
  fun _ _ h => h

/-- Cache extension is transitive. -/
theorem cacheExtends_trans {a b c : OffsetCache} (h1 : cacheExtends a b)
    (h2 : cacheExtends b c) : cacheExtends a c :=
  fun k v h => h2 k v (h1 k v h)

/-- A successful offset resolution only ever grows the cache. -/
theorem getOffsetMinutes_extends {fmt : String → Option (Nat × Nat)}
    {c : OffsetCache} {tz : String} {v : Int} {c1 : OffsetCache}
    (h : getOffsetMinutes fmt c tz = some (v, c1)) : cacheExtends c c1 := by
  unfold getOffsetMinutes at h
  cases hl : lookupCache c tz with
  | some w =>
      rw [hl] at h
      simp only [Option.some.injEq, Prod.mk.injEq] at h
      rw [← h.2]
      exact cacheExtends_refl c
  | none =>
      rw [hl] at h
      cases hf : fmt tz with
      | none =>
          rw [hf] at h
          simp at h
      | some HM =>
          obtain ⟨H, M⟩ := HM
          rw [hf] at h
          simp only [Option.some.injEq, Prod.mk.injEq] at h
          rw [← h.2]
          intro k w hk
          simp only [lookupCache]
          by_cases he : tz = k
          · subst he
            rw [hl] at hk
            cases hk
          · rw [if_neg he]
            exact hk

/-- After a successful offset resolution the zone is in the cache with
the returned value. -/
theorem getOffsetMinutes_cached {fmt : String → Option (Nat × Nat)}
    {c : OffsetCache} {tz : String} {v : Int} {c1 : OffsetCache}
    (h : getOffsetMinutes fmt c tz = some (v, c1)) :
    lookupCache c1 tz = some v := by
  unfold getOffsetMinutes at h
  cases hl : lookupCache c tz with
  | some w =>
      rw [hl] at h
      simp only [Option.some.injEq, Prod.mk.injEq] at h
      rw [← h.2, ← h.1]
      exact hl
  | none =>
      rw [hl] at h
      cases hf : fmt tz with
      | none =>
          rw [hf] at h
          simp at h
      | some HM =>
          obtain ⟨H, M⟩ := HM
          rw [hf] at h
          simp only [Option.some.injEq, Prod.mk.injEq] at h
          rw [← h.2, ← h.1]
          simp [lookupCache]

/-- Resolving a zone again from any cache extending the one it was stored
in is a pure cache hit: same value, cache untouched, formatting primitive
irrelevant. -/
theorem getOffsetMinutes_stable {fmt fmt2 : String → Option (Nat × Nat)}
    {c : OffsetCache} {tz : String} {v : Int} {c1 d : OffsetCache}
    (h : getOffsetMinutes fmt c tz = some (v, c1)) (hd : cacheExtends c1 d) :
    getOffsetMinutes fmt2 d tz = some (v, d) := by
  have hc1 : lookupCache c1 tz = some v := getOffsetMinutes_cached h
  have hdl : lookupCache d tz = some v := hd tz v hc1
  unfold getOffsetMinutes
  rw [hdl]

/-- A successful conversion only ever grows the cache. -/
theorem convertTimeE_extends {fmt : String → Option (Nat × Nat)}
    {s a b : String} {c : OffsetCache} {r : ConversionResult} {c2 : OffsetCache}
    (h : convertTimeE fmt s a b c = some (r, c2)) : cacheExtends c c2 := by
  unfold convertTimeE at h
  by_cases hg : a = b ∨ matchesHHMM s = false
  · rw [if_pos hg] at h
    simp only [Option.some.injEq, Prod.mk.injEq] at h
    rw [← h.2]
    exact cacheExtends_refl c
  · rw [if_neg hg] at h
    cases h1 : getOffsetMinutes fmt c a with
    | none =>
        rw [h1] at h
        simp at h
    | some p =>
        obtain ⟨oF, c1⟩ := p
        rw [h1] at h
        simp only [] at h
        cases h2 : getOffsetMinutes fmt c1 b with
        | none =>
            rw [h2] at h
            simp at h
        | some q =>
            obtain ⟨oT, cB⟩ := q
            rw [h2] at h
            simp only [Option.some.injEq, Prod.mk.injEq] at h
            rw [← h.2]
            exact cacheExtends_trans (getOffsetMinutes_extends h1)
              (getOffsetMinutes_extends h2)

/-- Re-running a successful conversion from any cache extending its final
cache yields the same result and leaves that cache untouched. -/
theorem convertTimeE_stable {fmt : String → Option (Nat × Nat)}
    {s a b : String} {c : OffsetCache} {r : ConversionResult} {c2 d : OffsetCache}
    (h : convertTimeE fmt s a b c = some (r, c2)) (hd : cacheExtends c2 d) :
    convertTimeE fmt s a b d = some (r, d) := by
  unfold convertTimeE at h ⊢
  by_cases hg : a = b ∨ matchesHHMM s = false
  · rw [if_pos hg] at h ⊢
    simp only [Option.some.injEq, Prod.mk.injEq] at h ⊢
    exact ⟨h.1, trivial⟩
  · rw [if_neg hg] at h ⊢
    cases h1 : getOffsetMinutes fmt c a with
    | none =>
        rw [h1] at h
        simp at h
    | some p =>
        obtain ⟨oF, c1⟩ := p
        rw [h1] at h
        simp only [] at h
        cases h2 : getOffsetMinutes fmt c1 b with
        | none =>
            rw [h2] at h
            simp at h
        | some q =>
            obtain ⟨oT, cB⟩ := q
            rw [h2] at h
            simp only [Option.some.injEq, Prod.mk.injEq] at h
            have e2 : cacheExtends c1 cB := getOffsetMinutes_extends h2
            have hcBd : cacheExtends cB d := by
              rw [h.2]
              exact hd
            have s1 : getOffsetMinutes fmt d a = some (oF, d) :=
              getOffsetMinutes_stable h1 (cacheExtends_trans e2 hcBd)
            have s2 : getOffsetMinutes fmt d b = some (oT, d) :=
              getOffsetMinutes_stable h2 hcBd
            rw [s1]
            simp only []
            rw [s2]
            simp only [Option.some.injEq, Prod.mk.injEq]
            exact ⟨h.1, trivial⟩

/-- A successful propagation pass only ever grows the cache. -/
theorem runNodes_extends {fmt : String → Option (Nat × Nat)} {a b : String} :
    ∀ {ns : List TimeNode} {c : OffsetCache} {outs : List RenderedNode}
      {cf : OffsetCache},
      runNodes fmt a b ns c = some (outs, cf) → cacheExtends c cf := by
  intro ns
  induction ns with
  | nil =>
      intro c outs cf h
      unfold runNodes at h
      simp only [Option.some.injEq, Prod.mk.injEq] at h
      rw [← h.2]
      exact cacheExtends_refl c
  | cons n rest ih =>
      intro c outs cf h
      unfold runNodes at h
      cases h1 : convertTimeE fmt n.baseTime a b c with
      | none =>
          rw [h1] at h
          simp at h
      | some p =>
          obtain ⟨r, c1⟩ := p
          rw [h1] at h
          simp only [] at h
          cases h2 : runNodes fmt a b rest c1 with
          | none =>
              rw [h2] at h
              simp at h
          | some q =>
              obtain ⟨outs2, c2⟩ := q
              rw [h2] at h
              simp only [Option.some.injEq, Prod.mk.injEq] at h
              rw [← h.2]
              exact cacheExtends_trans (convertTimeE_extends h1) (ih h2)

/-- Re-running a successful propagation pass from any cache extending its
final cache rewrites every node identically and leaves the cache
untouched. -/
theorem runNodes_stable {fmt : String → Option (Nat × Nat)} {a b : String} :
    ∀ {ns : List TimeNode} {c : OffsetCache} {outs : List RenderedNode}
      {cf d : OffsetCache},
      runNodes fmt a b ns c = some (outs, cf) → cacheExtends cf d →
      runNodes fmt a b ns d = some (outs, d) := by
  intro ns
  induction ns with
  | nil =>
      intro c outs cf d h hd
      unfold runNodes at h ⊢
      simp only [Option.some.injEq, Prod.mk.injEq] at h ⊢
      exact ⟨h.1, trivial⟩
  | cons n rest ih =>
      intro c outs cf d h hd
      unfold runNodes at h ⊢
      cases h1 : convertTimeE fmt n.baseTime a b c with
      | none =>
          rw [h1] at h
          simp at h
      | some p =>
          obtain ⟨r, c1⟩ := p
          rw [h1] at h
          simp only [] at h
          cases h2 : runNodes fmt a b rest c1 with
          | none =>
              rw [h2] at h
              simp at h
          | some q =>
              obtain ⟨outs2, c2⟩ := q
              rw [h2] at h
              simp only [Option.some.injEq, Prod.mk.injEq] at h
              have e2 : cacheExtends c1 c2 := runNodes_extends h2
              have hc2d : cacheExtends c2 d := by
                rw [h.2]
                exact hd
              have s1 : convertTimeE fmt n.baseTime a b d = some (r, d) :=
                convertTimeE_stable h1 (cacheExtends_trans e2 hc2d)
              have s2 : runNodes fmt a b rest d = some (outs2, d) := ih h2 hc2d
              rw [s1]
              simp only []
              rw [s2]
              simp only [Option.some.injEq, Prod.mk.injEq]
              exact ⟨h.1, trivial⟩

/-- C8: running the propagation pass twice in a row with the same
configuration base zone, selected zone and node set produces exactly the
same rewritten text and badges for every node: a second pass starting
from the cache the first pass produced returns the identical output (and
leaves the cache unchanged). -/
theorem C8_propagation_idempotent (fmt : String → Option (Nat × Nat))
    (cfgBase : Option String) (selected : String) (nodes : List TimeNode)
    (cache cacheF : OffsetCache) (outs : List RenderedNode)
    (h : updateAllTimesE fmt cfgBase selected nodes cache = some (outs, cacheF)) :
    updateAllTimesE fmt cfgBase selected nodes cacheF = some (outs, cacheF) := by
  unfold updateAllTimesE at h ⊢
  exact runNodes_stable h (cacheExtends_refl cacheF)

/-- C8 witness: converting the 09:00 node from the UTC+8 base zone to the
UTC-5 selected zone a second time, from the cache filled by the first
pass, rewrites it to the same "20:00" text with the same "-1" badge. -/
theorem C8_witness :
    updateAllTimesE fmtW (some "Base/Z") "Sel/Z" nodesW
        [("Sel/Z", 300), ("Base/Z", -480)] =
      some ([⟨"20:00", some "-1"⟩], [("Sel/Z", 300), ("Base/Z", -480)]) :=
  C8_propagation_idempotent fmtW (some "Base/Z") "Sel/Z" nodesW []
    [("Sel/Z", 300), ("Base/Z", -480)] [⟨"20:00", some "-1"⟩] (by decide)

/-- C9: in a propagation pass, a time-bearing node's content becomes its
optional literal prefix concatenated with the converted display string,
and exactly one badge is appended if and only if the conversion's day
offset is nonzero, its text reflecting only the sign: "+1" for positive,
"-1" for negative, regardless of magnitude. -/
theorem C9_node_rewrite (fmt : String → Option (Nat × Nat))
    (cfgBase : Option String) (selected : String) (n : TimeNode)
    (r : ConversionResult) (cache c2 : OffsetCache)
    (hconv : convertTimeE fmt n.baseTime (Option.getD cfgBase "Asia/Taipei")
      selected cache = some (r, c2)) :
    updateAllTimesE fmt cfgBase selected [n] cache =
      some ([renderNode n r], c2) ∧
    (renderNode n r).text = Option.getD n.notePrefixStr "" ++ r.display ∧
    ((renderNode n r).badge ≠ none ↔ r.dayOffset ≠ 0) ∧
    (0 < r.dayOffset → (renderNode n r).badge = some "+1") ∧
    (r.dayOffset < 0 → (renderNode n r).badge = some "-1") := by
  refine ⟨?_, rfl, ?_, ?_, ?_⟩
  · unfold updateAllTimesE runNodes
    rw [hconv]
    rfl
  · unfold renderNode
    by_cases hz : r.dayOffset = 0
    · simp [hz]
    · simp [hz]
  · intro hpos
    unfold renderNode
    simp only [if_pos (by omega : r.dayOffset ≠ 0), if_pos hpos]
  · intro hneg
    unfold renderNode
    simp only [if_pos (by omega : r.dayOffset ≠ 0),
      if_neg (by omega : ¬0 < r.dayOffset)]

/-- C9 witness: a node with a literal note prefix whose conversion lands
two days earlier (day offset -2) is rewritten to prefix + display with a
single "-1" badge. -/
theorem C9_witness :
    updateAllTimesE fmtNone (some "Zone/A") "Zone/B" [⟨"09:00", some "備註 "⟩]
        [("Zone/A", -2000), ("Zone/B", 1000)] =
      some ([⟨"備註 07:00", some "-1"⟩],
            [("Zone/A", -2000), ("Zone/B", 1000)]) ∧
    (renderNode ⟨"09:00", some "備註 "⟩ ⟨"07:00", -2⟩).badge = some "-1" := by
  have h := C9_node_rewrite fmtNone (some "Zone/A") "Zone/B"
    ⟨"09:00", some "備註 "⟩ ⟨"07:00", -2⟩
    [("Zone/A", -2000), ("Zone/B", 1000)]
    [("Zone/A", -2000), ("Zone/B", 1000)] (by decide)
  exact ⟨h.1.trans (by decide), h.2.2.2.2 (by decide)⟩

/-- C3 counterexample: "25:30" matches the accepted pattern, yet with two
distinct zones of equal resolved offset the round trip neither recovers
its hour and minute (it yields 01:30) nor do the two day offsets sum to 0
(they sum to 1). -/
theorem C3_counterexample :
    matchesHHMM "25:30" = true ∧
    ¬ (parseHM (convertTime offsetEq
          (convertTime offsetEq "25:30" "Zone/A" "Zone/B").display
          "Zone/B" "Zone/A").display = parseHM "25:30" ∧
       (convertTime offsetEq "25:30" "Zone/A" "Zone/B").dayOffset +
         (convertTime offsetEq
           (convertTime offsetEq "25:30" "Zone/A" "Zone/B").display
           "Zone/B" "Zone/A").dayOffset = 0) := by decide

/-- C3 (amended): for every time string matching the pattern whose parsed
hour is at most 23 and parsed minute at most 59, and every pair of zone
identifiers with resolved offsets, converting forward and then converting
the resulting display back recovers the original hour and minute exactly,
and the two day offsets sum to 0. -/
theorem C3_roundtrip (offset : String → Int) (t A B : String)
    (hm : matchesHHMM t = true)
    (hh : (parseHM t).1 ≤ 23) (hmin : (parseHM t).2 ≤ 59) :
    parseHM (convertTime offset (convertTime offset t A B).display B A).display
      = parseHM t ∧
    (convertTime offset t A B).dayOffset +
      (convertTime offset (convertTime offset t A B).display B A).dayOffset
        = 0 := by
  by_cases hAB : A = B
  · subst hAB
    have h1 : convertTime offset t A A = ⟨t, 0⟩ := by
      unfold convertTime
      rw [if_pos (Or.inl rfl)]
    simp [h1]
  · have hBA : B ≠ A := fun e => hAB e.symm
    rcases hpt : parseHM t with ⟨hN, mN⟩
    rw [hpt] at hh hmin
    simp only [] at hh hmin
    have hspec1 := convertTime_eq_spec offset t A B hm hAB
    rw [hpt] at hspec1
    simp only [] at hspec1
    have hb1 := specNormalized_bounds (specRawHM hN mN (offset A) (offset B))
    have h60a : (specNormalized (specRawHM hN mN (offset A) (offset B))).toNat
        / 60 < 24 := by omega
    have h60b : (specNormalized (specRawHM hN mN (offset A) (offset B))).toNat
        % 60 < 60 := by omega
    have hok1 := pad2_hhmm_ok _ h60a _ h60b
    have hm2 : matchesHHMM (specDisplay
        (specNormalized (specRawHM hN mN (offset A) (offset B))).toNat) = true :=
      hok1.1
    have hp1 : parseHM (specDisplay
        (specNormalized (specRawHM hN mN (offset A) (offset B))).toNat) =
        ((specNormalized (specRawHM hN mN (offset A) (offset B))).toNat / 60,
         (specNormalized (specRawHM hN mN (offset A) (offset B))).toNat % 60) :=
      hok1.2.2
    have hspec2 := convertTime_eq_spec offset
      (specDisplay (specNormalized (specRawHM hN mN (offset A) (offset B))).toNat)
      B A hm2 hBA
    rw [hp1] at hspec2
    simp only [] at hspec2
    have hb2 := specNormalized_bounds (specRawHM
      ((specNormalized (specRawHM hN mN (offset A) (offset B))).toNat / 60)
      ((specNormalized (specRawHM hN mN (offset A) (offset B))).toNat % 60)
      (offset B) (offset A))
    have h60c : (specNormalized (specRawHM
        ((specNormalized (specRawHM hN mN (offset A) (offset B))).toNat / 60)
        ((specNormalized (specRawHM hN mN (offset A) (offset B))).toNat % 60)
        (offset B) (offset A))).toNat / 60 < 24 := by omega
    have h60d : (specNormalized (specRawHM
        ((specNormalized (specRawHM hN mN (offset A) (offset B))).toNat / 60)
        ((specNormalized (specRawHM hN mN (offset A) (offset B))).toNat % 60)
        (offset B) (offset A))).toNat % 60 < 60 := by omega
    have hok2 := pad2_hhmm_ok _ h60c _ h60d
    have hp2 : parseHM (specDisplay
        (specNormalized (specRawHM
          ((specNormalized (specRawHM hN mN (offset A) (offset B))).toNat / 60)
          ((specNormalized (specRawHM hN mN (offset A) (offset B))).toNat % 60)
          (offset B) (offset A))).toNat) =
        ((specNormalized (specRawHM
          ((specNormalized (specRawHM hN mN (offset A) (offset B))).toNat / 60)
          ((specNormalized (specRawHM hN mN (offset A) (offset B))).toNat % 60)
          (offset B) (offset A))).toNat / 60,
         (specNormalized (specRawHM
          ((specNormalized (specRawHM hN mN (offset A) (offset B))).toNat / 60)
          ((specNormalized (specRawHM hN mN (offset A) (offset B))).toNat % 60)
          (offset B) (offset A))).toNat % 60) :=
      hok2.2.2
    rw [hspec1]
    simp only []
    rw [hspec2]
    simp only []
    rw [hp2]
    simp only [Prod.mk.injEq, fdiv_1440_eq, specNormalized_eq_emod, specRawHM]
      at hb1 hb2 ⊢
    refine ⟨⟨?_, ?_⟩, ?_⟩ <;> omega

/-- C3 witness: "09:00" from the UTC+8 zone to the UTC-5 zone and back
recovers hour 9 and minute 0, and the day offsets -1 and +1 cancel. -/
theorem C3_witness :
    parseHM (convertTime offsetEx
        (convertTime offsetEx "09:00" "Asia/Taipei" "America/New_York").display
        "America/New_York" "Asia/Taipei").display = parseHM "09:00" ∧
    (convertTime offsetEx "09:00" "Asia/Taipei" "America/New_York").dayOffset +
      (convertTime offsetEx
        (convertTime offsetEx "09:00" "Asia/Taipei" "America/New_York").display
        "America/New_York" "Asia/Taipei").dayOffset = 0 :=
  C3_roundtrip offsetEx "09:00" "Asia/Taipei" "America/New_York"
    (by decide) (by decide) (by decide)

end Frostmist
